import Mathlib

/-!
Verification of the spider-clients streaming/request layer.

The development embeds the TypeScript client's stream demultiplexer
(`createJsonLineProcessor`, `streamReader`, `processChunk`), the transport
error handling (`_apiPost` / `handleError` / `backOff`), the constructor
credential check, the `scrapeUrl` payload construction and the
`createSignedUrl` query building as executable Lean functions, and proves
the spec's testable properties about them.

JavaScript strings are modelled as `List Char`; a byte stream whose bytes
are ASCII decodes chunkwise to exactly those characters (`TextDecoder`
with `stream: true` makes chunk boundaries transparent), so stream chunks
are modelled as `List (List Char)`.
-/

namespace SpiderClient

/-- A JavaScript value as produced by `JSON.parse`: null, booleans, numbers,
strings, arrays and objects.  A number literal is kept exactly as
`mantissa * 10 ^ exponent` (the claims only ever compare small integers, so
no float rounding is involved). -/
inductive Jval where
  | jnull : Jval
  | jbool : Bool → Jval
  | jnum : Int → Int → Jval
  | jstr : List Char → Jval
  | jarr : List Jval → Jval
  | jobj : List (List Char × Jval) → Jval

/-- JSON insignificant whitespace (RFC 8259: space, tab, line feed,
carriage return), as skipped by `JSON.parse`. -/
def jsonWs (c : Char) : Bool :=
  c = ' ' || c = '\t' || c = '\n' || c = '\r'

/-- Skip JSON whitespace. -/
def dropWs : List Char → List Char
  | [] => []
  | c :: cs => if jsonWs c then dropWs cs else c :: cs

/-- Decimal digit test. -/
def isDigitCh (c : Char) : Bool := '0' ≤ c && c ≤ '9'

/-- Longest digit prefix and the rest. -/
def spanDigits : List Char → List Char × List Char
  | [] => ([], [])
  | c :: cs =>
    if isDigitCh c then
      let p := spanDigits cs
      (c :: p.1, p.2)
    else ([], c :: cs)

/-- Value of a digit string. -/
def digitsNat (ds : List Char) : Nat :=
  ds.foldl (fun a c => 10 * a + (c.toNat - 48)) 0

/-- The integer part of a JSON number: `0`, or a digit sequence that does not
start with `0` (JSON forbids leading zeros). -/
def intPart : List Char → Option (List Char × List Char)
  | '0' :: rest => some (['0'], rest)
  | cs =>
    let p := spanDigits cs
    if p.1 = [] then none else some p

/-- Exponent digits after an optional sign, at least one required. -/
def expAfterSign (sg : Int) (r : List Char) : Option (Int × List Char) :=
  let p := spanDigits r
  if p.1 = [] then none else some (sg * (digitsNat p.1 : Int), p.2)

/-- The optional exponent part of a JSON number. -/
def expPart : List Char → Option (Int × List Char)
  | 'e' :: '+' :: r => expAfterSign 1 r
  | 'e' :: '-' :: r => expAfterSign (-1) r
  | 'e' :: r => expAfterSign 1 r
  | 'E' :: '+' :: r => expAfterSign 1 r
  | 'E' :: '-' :: r => expAfterSign (-1) r
  | 'E' :: r => expAfterSign 1 r
  | cs => some (0, cs)

/-- A JSON number (`-?int frac? exp?`), returned as `Jval.jnum mantissa e10`.
Any input not starting a number fails here, which is also where `JSON.parse`
rejects garbage such as `NOT-JSON`. -/
def parseNumber (cs : List Char) : Option (Jval × List Char) := do
  let (sg, cs1) : Int × List Char :=
    match cs with
    | '-' :: r => (-1, r)
    | _ => (1, cs)
  let (ids, cs2) ← intPart cs1
  let (fds, cs3) ←
    match cs2 with
    | '.' :: r =>
      let p := spanDigits r
      if p.1 = [] then none else some p
    | _ => some (([] : List Char), cs2)
  let (e, cs4) ← expPart cs3
  some (Jval.jnum (sg * (digitsNat (ids ++ fds) : Int)) (e - (fds.length : Int)), cs4)

/-- A single-character JSON string escape. -/
def escChar (c : Char) : Option Char :=
  if c = '"' then some '"'
  else if c = '\\' then some '\\'
  else if c = '/' then some '/'
  else if c = 'b' then some (Char.ofNat 8)
  else if c = 'f' then some (Char.ofNat 12)
  else if c = 'n' then some '\n'
  else if c = 'r' then some '\r'
  else if c = 't' then some '\t'
  else none

/-- Hexadecimal digit value. -/
def hexVal (c : Char) : Option Nat :=
  if '0' ≤ c && c ≤ '9' then some (c.toNat - 48)
  else if 'a' ≤ c && c ≤ 'f' then some (c.toNat - 97 + 10)
  else if 'A' ≤ c && c ≤ 'F' then some (c.toNat - 65 + 10)
  else none

/-- Body of a JSON string after the opening quote: characters up to the
closing quote, with escapes resolved; raw control characters are rejected. -/
def lexString : List Char → Option (List Char × List Char)
  | [] => none
  | '"' :: r => some ([], r)
  | '\\' :: 'u' :: a :: b :: c :: d :: r => do
    let va ← hexVal a
    let vb ← hexVal b
    let vc ← hexVal c
    let vd ← hexVal d
    let (s, r2) ← lexString r
    some (Char.ofNat (((va * 16 + vb) * 16 + vc) * 16 + vd) :: s, r2)
  | '\\' :: e :: r => do
    let ce ← escChar e
    let (s, r2) ← lexString r
    some (ce :: s, r2)
  | c :: r =>
    if c.toNat < 32 then none
    else do
      let (s, r2) ← lexString r
      some (c :: s, r2)

mutual

/-- One JSON value, recursing on `fuel` (each recursion step consumes at
least one input character, so `input length + 1` fuel always suffices). -/
def jvalue : Nat → List Char → Option (Jval × List Char)
  | 0, _ => none
  | fuel + 1, cs =>
    match dropWs cs with
    | 'n' :: 'u' :: 'l' :: 'l' :: r => some (Jval.jnull, r)
    | 't' :: 'r' :: 'u' :: 'e' :: r => some (Jval.jbool true, r)
    | 'f' :: 'a' :: 'l' :: 's' :: 'e' :: r => some (Jval.jbool false, r)
    | '"' :: r => (lexString r).map fun p => (Jval.jstr p.1, p.2)
    | '[' :: r =>
      match dropWs r with
      | ']' :: r2 => some (Jval.jarr [], r2)
      | cs2 => (jitems fuel cs2).map fun p => (Jval.jarr p.1, p.2)
    | '{' :: r =>
      match dropWs r with
      | '}' :: r2 => some (Jval.jobj [], r2)
      | cs2 => (jpairs fuel cs2).map fun p => (Jval.jobj p.1, p.2)
    | cs1 => parseNumber cs1

/-- One-or-more comma-separated array elements up to `]`. -/
def jitems : Nat → List Char → Option (List Jval × List Char)
  | 0, _ => none
  | fuel + 1, cs => do
    let (v, r) ← jvalue fuel cs
    match dropWs r with
    | ',' :: r2 => do
      let (vs, r3) ← jitems fuel r2
      some (v :: vs, r3)
    | ']' :: r2 => some ([v], r2)
    | _ => none

/-- One-or-more comma-separated object members up to the closing brace. -/
def jpairs : Nat → List Char → Option (List (List Char × Jval) × List Char)
  | 0, _ => none
  | fuel + 1, cs =>
    match dropWs cs with
    | '"' :: r => do
      let (k, r1) ← lexString r
      match dropWs r1 with
      | ':' :: r2 => do
        let (v, r3) ← jvalue fuel r2
        match dropWs r3 with
        | ',' :: r4 => do
          let (ps, r5) ← jpairs fuel r4
          some ((k, v) :: ps, r5)
        | '}' :: r4 => some ([(k, v)], r4)
        | _ => none
      | _ => none
    | _ => none

end

/-- `JSON.parse` on a whole text: one value, surrounding whitespace allowed,
nothing else; `none` models the thrown `SyntaxError`. -/
def jsonParse (cs : List Char) : Option Jval := do
  let (v, r) ← jvalue (cs.length + 1) cs
  if dropWs r = [] then some v else none

/-- The whitespace set of JavaScript `String.prototype.trim`: tab, LF, VT,
FF, CR, space, NBSP, BOM and the Unicode line/paragraph separators. -/
def jsTrimWs (c : Char) : Bool :=
  jsonWs c || c = Char.ofNat 11 || c = Char.ofNat 12 || c = Char.ofNat 160 ||
    c = Char.ofNat 0x2028 || c = Char.ofNat 0x2029 || c = Char.ofNat 0xFEFF

/-- JavaScript `line.trim()`: whitespace removed from both ends. -/
def jsTrim (cs : List Char) : List Char :=
  ((cs.dropWhile jsTrimWs).reverse.dropWhile jsTrimWs).reverse

/-! ### The stream demultiplexer (`createJsonLineProcessor`, part_008)

The returned closure appends each chunk to a buffer and loops: as long as
`buffer.indexOf("\n")` is not `-1` it slices off the text before the first
newline as `line`, keeps the text after it as the new buffer, and — when
`line.trim()` is non-empty — tries `cb(JSON.parse(line))`, swallowing any
parse error.  `breakLine` is one `indexOf`/`slice` step; `extractLines` is
the whole loop (theorem `extractLines_loop` below re-states it as exactly
that iteration); `parseLine` is the body guarded by `line.trim()`. -/

/-- Split a buffer at its first newline: `some (before, after)`, or `none`
when `indexOf("\n")` is `-1`. -/
def breakLine : List Char → Option (List Char × List Char)
  | [] => none
  | c :: cs =>
    if c = '\n' then some ([], cs)
    else
      match breakLine cs with
      | some (l, r) => some (c :: l, r)
      | none => none

/-- All complete lines of a buffer (in order) and the remaining text after
the last newline — the drained state of the processor's `while` loop. -/
def extractLines : List Char → List (List Char) × List Char
  | [] => ([], [])
  | c :: cs =>
    let p := extractLines cs
    if c = '\n' then ([] :: p.1, p.2)
    else
      match p.1 with
      | [] => ([], c :: p.2)
      | l :: ls => ((c :: l) :: ls, p.2)

/-- The loop body for one extracted line: skipped when `line.trim()` is
empty, otherwise `cb(JSON.parse(line))` with the `SyntaxError` swallowed
(`none` = the callback is not invoked for this line). -/
def parseLine (line : List Char) : Option Jval :=
  if jsTrim line = [] then none else jsonParse line

/-- Feeding one chunk to the processor closure: the buffer grows by the
chunk, every complete line is extracted, and the guarded parse decides
which lines reach the callback.  Returns (callback invocations in order,
new buffer). -/
def feed (buf chunk : List Char) : List Jval × List Char :=
  let p := extractLines (buf ++ chunk)
  (p.1.filterMap parseLine, p.2)

/-- Feeding a chunk sequence to the processor closure, threading the
buffer; the first component collects every callback invocation in order. -/
def feedAll (buf : List Char) : List (List Char) → List Jval × List Char
  | [] => ([], buf)
  | c :: cs =>
    let p := feed buf c
    let q := feedAll p.2 cs
    (p.1 ++ q.1, q.2)

/-- A fresh `createJsonLineProcessor` fed a chunk sequence: all callback
invocations in order. -/
def runProcessor (chunks : List (List Char)) : List Jval :=
  (feedAll [] chunks).1

/-! ### `streamReader` (part_009) and `processChunk` (part_007) -/

/-- A completed `fetch` response: its HTTP status and its body as the
decoded text chunks the reader loop sees. -/
structure FetchResponse where
  status : Nat
  chunks : List (List Char)

/-- `Response.ok`: status in the inclusive range 200–299. -/
def respOk (r : FetchResponse) : Bool :=
  200 ≤ r.status && r.status ≤ 299

/-- The callback invocations `streamReader` produces on an `ok` response:
each body chunk is fed to a fresh `createJsonLineProcessor`, and after the
reader reports `done` the processor is fed the final
`decoder.decode(new Uint8Array(), \x7b stream: false \x7d)`, which is the
empty string. -/
def streamBodyRecords (chunks : List (List Char)) : List Jval :=
  runProcessor (chunks ++ [[]])

/-- `streamReader` (part_009): `if (res.ok)` guards everything — on a
non-ok response it does nothing and resolves; on an ok response it drives
the line processor over the body. -/
def streamReader (r : FetchResponse) : List Jval :=
  if respOk r then streamBodyRecords r.chunks else []

/-- `processChunk` (part_007): `cb(chunk ? JSON.parse(chunk.trim()) : null)`
inside try/catch.  First component: the value the callback is invoked with
(`none` = the parse threw, so the callback never ran); second: the boolean
the function returns. -/
def processChunk (chunk : List Char) : Option Jval × Bool :=
  if chunk = [] then (some Jval.jnull, true)
  else
    match jsonParse (jsTrim chunk) with
    | some v => (some v, true)
    | none => (none, false)

/-! ### Transport (`_apiPost`, `handleError`, `backOff`, part_013) -/

/-- What `handleError` throws: `new Error` whose message carries the
attempted action description and the numeric status code. -/
structure ClientError where
  action : String
  status : Nat
deriving DecidableEq, Repr

/-- The thrown error's message text,
`Failed to <action>. Status code: <status>.`. -/
def errorMessage (e : ClientError) : String :=
  "Failed to " ++ e.action ++ ". Status code: " ++ toString e.status ++ "."

/-- `_apiPost` after the fetch completed with response `r`: when `stream`
is false a non-ok response is turned into the `handleError` throw carrying
the action `post to <endpoint>` and the status; when `stream` is true the
response is returned as-is, ok or not. -/
def apiPost (endpoint : String) (stream : Bool) (r : FetchResponse) :
    Except ClientError FetchResponse :=
  if !stream then
    if respOk r then Except.ok r
    else Except.error ⟨"post to " ++ endpoint, r.status⟩
  else Except.ok r

/-- The streaming path of `crawlUrl` with `stream = true` and a callback:
`_apiPost(APIRoutes.Crawl, ..., stream, true)` followed by
`streamReader(res, cb)`.  The result is the list of callback invocations
(`Except.error` would be the rejection the caller sees). -/
def crawlUrlStreamed (r : FetchResponse) : Except ClientError (List Jval) :=
  match apiPost "crawl" true r with
  | Except.error e => Except.error e
  | Except.ok resp => Except.ok (streamReader resp)

/-- Modelled from the spec: `backOff` is the external `exponential-backoff`
npm package, not part of this repository.  Per the spec's retry policy it
re-invokes the request after a transient failure (a rejected attempt) and
is "capped at 5 attempts total" via the `numOfAttempts` option the call
sites pass; a fulfilled attempt is returned at once.  `req i` is attempt
number `i` (1-based); the result pairs the number of attempts made with
the final outcome.  `backOffAux req i rem` runs attempt `i` with `rem`
further attempts allowed after it. -/
def backOffAux {α : Type} (req : Nat → Except String α) (i : Nat) :
    Nat → Nat × Except String α
  | 0 => (i, req i)
  | rem + 1 =>
    match req i with
    | Except.ok a => (i, Except.ok a)
    | Except.error _ => backOffAux req (i + 1) rem

/-- Modelled from the spec: `backOff(fn, \x7b numOfAttempts \x7d)` — see
`backOffAux`. -/
def backOff {α : Type} (numOfAttempts : Nat) (req : Nat → Except String α) :
    Nat × Except String α :=
  backOffAux req 1 (numOfAttempts - 1)

/-- Every transport call site (`_apiPost`, `_apiGet`, `_apiDelete` in
part_013) wraps its `fetch` in `backOff(..., \x7b numOfAttempts: 5 \x7d)`. -/
def transportAttempts {α : Type} (req : Nat → Except String α) :
    Nat × Except String α :=
  backOff 5 req

/-! ### Constructor credential check (part_013 lines 304–310) -/

/-- JavaScript `a || b` on two possibly-undefined strings: `a` unless it is
falsy (`undefined` or the empty string), else `b`. -/
def jsOrElse (a b : Option String) : Option String :=
  match a with
  | some s => if s = "" then b else some s
  | none => b

/-- The `Spider` constructor: `this.apiKey = props?.apiKey ||
process?.env?.SPIDER_API_KEY; if (!this.apiKey) throw new Error(...)`.
`explicitKey` is `props?.apiKey`, `envKey` the environment variable; the
result is the stored key, or the error thrown synchronously before any
network request. -/
def spiderInit (explicitKey envKey : Option String) : Except String String :=
  match jsOrElse explicitKey envKey with
  | some k => if k = "" then Except.error "No API key provided" else Except.ok k
  | none => Except.error "No API key provided"

/-! ### `scrapeUrl` payload (part_013 line 406) -/

/-- Setting one property of a JavaScript object (modelled as an assoc list
in property order): an existing key is overwritten in place, a new key is
appended. -/
def setProp (o : List (String × Jval)) (k : String) (v : Jval) :
    List (String × Jval) :=
  if o.any fun p => p.1 = k then
    o.map fun p => if p.1 = k then (k, v) else p
  else o ++ [(k, v)]

/-- Object spread `\x7b ...base, ...params \x7d`: each property of `params`
is assigned onto `base` in order. -/
def spreadInto (base params : List (String × Jval)) : List (String × Jval) :=
  params.foldl (fun acc p => setProp acc p.1 p.2) base

/-- The request body `scrapeUrl` builds:
`\x7b url: url, limit: 1, ...params \x7d`. -/
def scrapeUrlBody (url : Jval) (params : List (String × Jval)) :
    List (String × Jval) :=
  spreadInto [("url", url), ("limit", Jval.jnum 1 0)] params

/-- Reading a property of a JavaScript object modelled as an assoc list
(duplicate keys never arise from object literals, so the first match is
the property's value; `none` = the property is absent). -/
def getProp : List (String × Jval) → String → Option Jval
  | [], _ => none
  | p :: t, k => if p.1 = k then some p.2 else getProp t k

/-! ### `createSignedUrl` query building (part_013 lines 547–583) -/

/-- One conditional spread `...(v && \x7b key: v \x7d)` for a string
option: a falsy value (absent or empty) contributes nothing. -/
def optStrParam (key : String) (v : Option String) : List (String × String) :=
  match v with
  | some s => if s = "" then [] else [(key, s)]
  | none => []

/-- One conditional spread `...(v && \x7b key: v.toString() \x7d)` for a
numeric option: a falsy value (absent or zero) contributes nothing, any
other value is serialized with `Number.prototype.toString`, i.e. as a
decimal string. -/
def optNumParam (key : String) (v : Option Int) : List (String × String) :=
  match v with
  | some n => if n = 0 then [] else [(key, toString n)]
  | none => []

/-- The key/value pairs `createSignedUrl` hands to `new URLSearchParams`,
in the object-literal order url, domain, pathname, page, limit,
expiresIn. -/
def signedUrlParams (url domain pathname : Option String)
    (page limit expiresIn : Option Int) : List (String × String) :=
  optStrParam "url" url ++ optStrParam "domain" domain ++
    optStrParam "pathname" pathname ++ optNumParam "page" page ++
    optNumParam "limit" limit ++ optNumParam "expiresIn" expiresIn

/-- A string option is JavaScript-truthy: present and non-empty. -/
def strTruthy (o : Option String) : Prop := ∃ s, o = some s ∧ s ≠ ""

/-- A numeric option is JavaScript-truthy: present and non-zero. -/
def numTruthy (o : Option Int) : Prop := ∃ n, o = some n ∧ n ≠ 0

/-! ### Concrete streams and records used by the spec's testable
properties -/

/-- The record `\x7b a: 1 \x7d`. -/
def recA : Jval := Jval.jobj [("a".toList, Jval.jnum 1 0)]

/-- The record `\x7b b: 2 \x7d`. -/
def recB : Jval := Jval.jobj [("b".toList, Jval.jnum 2 0)]

/-- The stream text of the boundary-reassembly property. -/
def streamAB : List Char := "\x7b\"a\":1\x7d\n\x7b\"b\":2\x7d\n".toList

/-- The stream text of the trailing-partial-line property (no trailing
newline). -/
def streamABtail : List Char := "\x7b\"a\":1\x7d\n\x7b\"b\":2\x7d".toList

/-- The stream text of the malformed-line-skip property. -/
def streamABbad : List Char :=
  "\x7b\"a\":1\x7d\nNOT-JSON\n\x7b\"b\":2\x7d\n".toList

/-! ## Lemmas about the line-extraction loop -/

/-- A newline at the front of the buffer completes an empty line. -/
theorem extractLines_nl (cs : List Char) :
    extractLines ('\n' :: cs) = ([] :: (extractLines cs).1, (extractLines cs).2) := by
  simp [extractLines]

/-- A non-newline character in front of a line-free buffer stays in the
remainder. -/
theorem extractLines_cons_of_nil {c : Char} {cs : List Char} (hc : c ≠ '\n')
    (h1 : (extractLines cs).1 = []) :
    extractLines (c :: cs) = ([], c :: (extractLines cs).2) := by
  simp [extractLines, if_neg hc, h1]

/-- A non-newline character in front of a buffer with a complete line
joins that first line. -/
theorem extractLines_cons_of_cons {c : Char} {cs l : List Char}
    {ls : List (List Char)} (hc : c ≠ '\n')
    (h1 : (extractLines cs).1 = l :: ls) :
    extractLines (c :: cs) = ((c :: l) :: ls, (extractLines cs).2) := by
  simp [extractLines, if_neg hc, h1]

/-- `extractLines` is exactly the processor's `while` loop: one
`indexOf`/`slice` step (`breakLine`) emits the first complete line and
recurses on the text after the newline; with no newline left the loop
exits keeping the buffer. -/
theorem extractLines_loop (buf : List Char) :
    extractLines buf =
      match breakLine buf with
      | some (l, r) => (l :: (extractLines r).1, (extractLines r).2)
      | none => ([], buf) := by
  induction buf with
  | nil => rfl
  | cons c cs ih =>
    by_cases hc : c = '\n'
    · subst hc
      rw [extractLines_nl]
      simp [breakLine]
    · simp only [breakLine, if_neg hc]
      cases hb : breakLine cs with
      | none =>
        have hnil : extractLines cs = ([], cs) := by rw [ih, hb]
        have h1 : (extractLines cs).1 = [] := by rw [hnil]
        rw [extractLines_cons_of_nil hc h1, hnil]
      | some p =>
        have hcs : extractLines cs = (p.1 :: (extractLines p.2).1, (extractLines p.2).2) := by
          rw [ih, hb]
        have h1 : (extractLines cs).1 = p.1 :: (extractLines p.2).1 := by rw [hcs]
        rw [extractLines_cons_of_cons hc h1, hcs]

/-- Draining a concatenation: the complete lines of `x ++ y` are the
complete lines of `x` followed by those of `rem(x) ++ y`, and the final
remainder comes from the latter. -/
theorem extractLines_append (x y : List Char) :
    extractLines (x ++ y) =
      ((extractLines x).1 ++ (extractLines ((extractLines x).2 ++ y)).1,
        (extractLines ((extractLines x).2 ++ y)).2) := by
  induction x with
  | nil => simp [extractLines]
  | cons c cs ih =>
    have ih1 : (extractLines (cs ++ y)).1 =
        (extractLines cs).1 ++ (extractLines ((extractLines cs).2 ++ y)).1 := by
      rw [ih]
    have ih2 : (extractLines (cs ++ y)).2 =
        (extractLines ((extractLines cs).2 ++ y)).2 := by
      rw [ih]
    rw [List.cons_append]
    by_cases hc : c = '\n'
    · subst hc
      rw [extractLines_nl, extractLines_nl, ih1, ih2]
      simp
    · cases h1 : (extractLines cs).1 with
      | nil =>
        rw [extractLines_cons_of_nil hc h1]
        cases hq : (extractLines ((extractLines cs).2 ++ y)).1 with
        | nil =>
          have l1 : (extractLines (cs ++ y)).1 = [] := by
            rw [ih1, h1, hq]; rfl
          rw [extractLines_cons_of_nil hc l1, List.cons_append,
            extractLines_cons_of_nil hc hq, ih2]
          simp
        | cons m ms =>
          have l1 : (extractLines (cs ++ y)).1 = m :: ms := by
            rw [ih1, h1, hq]; rfl
          rw [extractLines_cons_of_cons hc l1, List.cons_append,
            extractLines_cons_of_cons hc hq, ih2]
          simp
      | cons l ls =>
        have l1 : (extractLines (cs ++ y)).1 =
            l :: (ls ++ (extractLines ((extractLines cs).2 ++ y)).1) := by
          rw [ih1, h1]; rfl
        rw [extractLines_cons_of_cons hc l1, extractLines_cons_of_cons hc h1, ih2]
        simp

/-- The remainder the loop leaves behind never contains a newline. -/
theorem extractLines_rem_nonl (cs : List Char) :
    '\n' ∉ (extractLines cs).2 := by
  induction cs with
  | nil => simp [extractLines]
  | cons c cs ih =>
    by_cases hc : c = '\n'
    · subst hc
      rw [extractLines_nl]
      exact ih
    · cases h1 : (extractLines cs).1 with
      | nil =>
        rw [extractLines_cons_of_nil hc h1]
        intro hmem
        rcases List.mem_cons.mp hmem with h | h
        · exact hc h.symm
        · exact ih h
      | cons l ls =>
        rw [extractLines_cons_of_cons hc h1]
        exact ih

/-- A buffer without a newline has no complete line: the loop does not
run. -/
theorem extractLines_nonl (cs : List Char) (h : '\n' ∉ cs) :
    extractLines cs = ([], cs) := by
  induction cs with
  | nil => rfl
  | cons c cs ih =>
    have hc : c ≠ '\n' := fun he => h (he ▸ List.mem_cons_self c cs)
    have hcs : '\n' ∉ cs := fun hm => h (List.mem_cons_of_mem c hm)
    simp only [extractLines, if_neg hc, ih hcs]

/-- Feeding the concatenation of two chunks equals feeding them one after
the other. -/
theorem feed_append (buf c1 c2 : List Char) :
    feed buf (c1 ++ c2) =
      ((feed buf c1).1 ++ (feed (feed buf c1).2 c2).1,
        (feed (feed buf c1).2 c2).2) := by
  simp only [feed]
  rw [← List.append_assoc, extractLines_append (buf ++ c1) c2,
    List.filterMap_append]

/-- Feeding a chunk sequence from a fully-drained buffer equals feeding
the single concatenated chunk. -/
theorem feedAll_flatten (cs : List (List Char)) :
    ∀ buf : List Char, extractLines buf = ([], buf) →
      feedAll buf cs = feed buf cs.flatten := by
  induction cs with
  | nil =>
    intro buf hbuf
    simp [feedAll, feed, hbuf]
  | cons c cs ih =>
    intro buf hbuf
    have hrem : extractLines ((feed buf c).2) = ([], (feed buf c).2) := by
      have : '\n' ∉ (feed buf c).2 := by
        simpa [feed] using extractLines_rem_nonl (buf ++ c)
      exact extractLines_nonl _ this
    simp only [feedAll, List.flatten_cons]
    rw [ih (feed buf c).2 hrem, feed_append]

/-- A fresh processor's output depends only on the concatenated text. -/
theorem runProcessor_flatten (cs : List (List Char)) :
    feedAll ([] : List Char) cs = feed [] cs.flatten :=
  feedAll_flatten cs [] rfl

/-- The records of a streamed body are those of the concatenated text. -/
theorem streamBodyRecords_flatten (cs : List (List Char)) :
    streamBodyRecords cs = (feed [] cs.flatten).1 := by
  show (feedAll [] (cs ++ [[]])).1 = (feed [] cs.flatten).1
  rw [runProcessor_flatten]
  simp

/-! ## The claims -/

/-- C9: the line processor is a homomorphism with respect to chunk
concatenation: two chunkings of the same text fed to fresh
`createJsonLineProcessor` instances produce the same callback invocations
(and the same final buffer). -/
theorem chunking_invariance (cs ds : List (List Char))
    (h : cs.flatten = ds.flatten) :
    feedAll ([] : List Char) cs = feedAll ([] : List Char) ds := by
  rw [runProcessor_flatten, runProcessor_flatten, h]

/-- C9 witness: `\x7b"a":1\x7d\n` split as one chunk and as three chunks
gives identical output. -/
theorem chunking_invariance_witness :
    feedAll ([] : List Char) ["\x7b\"a\":1\x7d\n".toList] =
      feedAll ([] : List Char)
        ["\x7b\"a\"".toList, ":1".toList, "\x7d\n".toList] :=
  chunking_invariance _ _ rfl

/-- C1: every chunking of the byte stream `\x7b"a":1\x7d\n\x7b"b":2\x7d\n`
fed through `streamReader`'s processor loop invokes the callback exactly
twice, with the parsed `\x7b a: 1 \x7d` and then `\x7b b: 2 \x7d`. -/
theorem boundary_reassembly (cs : List (List Char))
    (h : cs.flatten = streamAB) :
    streamBodyRecords cs = [recA, recB] := by
  rw [streamBodyRecords_flatten, h]
  rfl

/-- C1 witness: a three-chunk split with boundaries inside a JSON token
and between the two records. -/
theorem boundary_reassembly_witness :
    streamBodyRecords
      ["\x7b\"a\"".toList, ":1\x7d\n\x7b\"b\"".toList, ":2\x7d\n".toList] =
      [recA, recB] :=
  boundary_reassembly _ rfl

/-- C2 counterexample: on the stream `\x7b"a":1\x7d\n\x7b"b":2\x7d` (no
trailing newline) the demultiplexer emits only the first record — the
final partial line is never parsed, so the claimed two invocations do not
happen. -/
theorem trailing_partial_line_cex :
    streamBodyRecords [streamABtail] = [recA] ∧
      streamBodyRecords [streamABtail] ≠ [recA, recB] :=
  ⟨rfl, fun h => absurd (congrArg List.length h) (by decide)⟩

/-- C2 amended: a stream ending in a non-empty line with no trailing
newline emits only the records of the newline-terminated lines; the final
partial line stays unparsed in the processor's buffer after end-of-data
(the end-of-stream flush `decoder.decode(new Uint8Array(), \x7b stream:
false \x7d)` appends only the empty string, which completes no line). -/
theorem trailing_partial_line_amended (cs : List (List Char))
    (h : cs.flatten = streamABtail) :
    streamBodyRecords cs = [recA] ∧
      (feedAll ([] : List Char) (cs ++ [[]])).2 = "\x7b\"b\":2\x7d".toList := by
  constructor
  · rw [streamBodyRecords_flatten, h]
    rfl
  · rw [runProcessor_flatten]
    have : (cs ++ [[]]).flatten = streamABtail := by simp [h]
    rw [this]
    rfl

/-- C2 amended witness: the stream delivered as two chunks split inside
the second record. -/
theorem trailing_partial_line_amended_witness :
    streamBodyRecords ["\x7b\"a\":1\x7d\n\x7b\"b\"".toList, ":2\x7d".toList] = [recA] ∧
      (feedAll ([] : List Char)
          (["\x7b\"a\":1\x7d\n\x7b\"b\"".toList, ":2\x7d".toList] ++ [[]])).2 =
        "\x7b\"b\":2\x7d".toList :=
  trailing_partial_line_amended _ (by decide)

/-- C3: on `\x7b"a":1\x7d\nNOT-JSON\n\x7b"b":2\x7d\n`, under any chunking,
exactly the two well-formed records are delivered; the malformed middle
line is silently discarded (the model is a total function — the swallowed
`SyntaxError` never escapes) and processing continues. -/
theorem malformed_line_skip (cs : List (List Char))
    (h : cs.flatten = streamABbad) :
    streamBodyRecords cs = [recA, recB] := by
  rw [streamBodyRecords_flatten, h]
  rfl

/-- C3 witness: a split that severs the malformed line itself. -/
theorem malformed_line_skip_witness :
    streamBodyRecords
      ["\x7b\"a\":1\x7d\nNOT-".toList, "JSON\n\x7b\"b\":2\x7d\n".toList] =
      [recA, recB] :=
  malformed_line_skip _ rfl

/-- C8 counterexample: the stream `null\n` makes the demultiplexer invoke
the callback with `null` — not a fully-formed envelope object. -/
theorem callback_null_cex :
    Jval.jnull ∈ streamBodyRecords [("null\n").toList] :=
  List.Mem.head _

/-- C8 amended: for every input stream, the sequence the demultiplexer
forwards to the callback is exactly, in order, the successful guarded
parses of the complete lines of the concatenated stream — a line whose
`trim()` is empty is skipped and a fragment that fails `JSON.parse` is
silently dropped (`parseLine` returns `none`, `filterMap` forwards
nothing) — so every forwarded value is the parse of one of the stream's
own complete, non-blank lines; but that value may be any JSON value
(`null`, a number, …), not necessarily an envelope-shaped object. -/
theorem records_from_parsed_lines (cs : List (List Char)) :
    streamBodyRecords cs = (extractLines cs.flatten).1.filterMap parseLine ∧
      ∀ v ∈ streamBodyRecords cs, ∃ line ∈ (extractLines cs.flatten).1,
        jsTrim line ≠ [] ∧ jsonParse line = some v := by
  have heq : streamBodyRecords cs =
      (extractLines cs.flatten).1.filterMap parseLine := by
    rw [streamBodyRecords_flatten, feed, List.nil_append]
  refine ⟨heq, ?_⟩
  intro v hv
  rw [heq] at hv
  obtain ⟨line, hmem, hpl⟩ := List.mem_filterMap.mp hv
  by_cases ht : jsTrim line = []
  · rw [parseLine, if_pos ht] at hpl
    exact absurd hpl (by simp)
  · rw [parseLine, if_neg ht] at hpl
    exact ⟨line, hmem, ht, hpl⟩

/-- C4 counterexample: a streaming crawl with a callback against a 401
response resolves successfully with zero callback invocations — the
non-2xx status is not propagated to the caller. -/
theorem streaming_non2xx_silent_cex :
    crawlUrlStreamed ⟨401, []⟩ = Except.ok [] := rfl

/-- C4 amended: a buffered (non-streaming) call whose response is outside
2xx throws the `handleError` error carrying the action description and
the status code; the streaming path instead returns the raw response from
`_apiPost` unchecked, and `streamReader`'s `res.ok` guard then absorbs the
failure, so the call resolves with zero callback invocations and no
error. -/
theorem non2xx_error_handling (endpoint : String) (r : FetchResponse)
    (h : respOk r = false) :
    apiPost endpoint false r =
        Except.error ⟨"post to " ++ endpoint, r.status⟩ ∧
      crawlUrlStreamed r = Except.ok [] := by
  constructor
  · simp [apiPost, h]
  · simp [crawlUrlStreamed, apiPost, streamReader, h]

/-- C4 amended witness: a 404 on the `crawl` endpoint. -/
theorem non2xx_error_handling_witness :
    apiPost "crawl" false ⟨404, []⟩ =
        Except.error ⟨"post to " ++ "crawl", 404⟩ ∧
      crawlUrlStreamed ⟨404, []⟩ = Except.ok [] :=
  non2xx_error_handling "crawl" ⟨404, []⟩ rfl

/-- The attempt counter of `backOffAux` is bounded by the first attempt
number plus the remaining allowance. -/
theorem backOffAux_fst_le {α : Type} (req : Nat → Except String α) :
    ∀ (rem i : Nat), (backOffAux req i rem).1 ≤ i + rem := by
  intro rem
  induction rem with
  | zero => intro i; simp [backOffAux]
  | succ rem ih =>
    intro i
    rw [backOffAux]
    cases req i with
    | ok a => simp
    | error e =>
      calc (backOffAux req (i + 1) rem).1 ≤ i + 1 + rem := ih (i + 1)
        _ = i + (rem + 1) := by omega

/-- When every attempt fails, the surfaced outcome is the failure. -/
theorem backOffAux_error {α : Type} (req : Nat → Except String α)
    (h : ∀ j, ∃ msg, req j = Except.error msg) :
    ∀ (rem i : Nat), ∃ msg, (backOffAux req i rem).2 = Except.error msg := by
  intro rem
  induction rem with
  | zero => intro i; simpa [backOffAux] using h i
  | succ rem ih =>
    intro i
    obtain ⟨msg, hm⟩ := h i
    rw [backOffAux, hm]
    exact ih (i + 1)

/-- C5: a transport call (every `_apiPost`/`_apiGet`/`_apiDelete` wraps its
fetch in `backOff` with `numOfAttempts: 5`) against a target whose every
attempt fails transiently makes at most 5 attempts and then surfaces the
failure — it never retries indefinitely. -/
theorem retry_bound {α : Type} (req : Nat → Except String α)
    (h : ∀ j, ∃ msg, req j = Except.error msg) :
    (transportAttempts req).1 ≤ 5 ∧
      ∃ msg, (transportAttempts req).2 = Except.error msg := by
  refine ⟨?_, backOffAux_error req h 4 1⟩
  simpa using backOffAux_fst_le req 4 1

/-- C5 witness: a target that always rejects with a network error. -/
theorem retry_bound_witness :
    (transportAttempts fun _ => (Except.error "ECONNRESET" : Except String Unit)).1 ≤ 5 ∧
      ∃ msg, (transportAttempts fun _ =>
        (Except.error "ECONNRESET" : Except String Unit)).2 = Except.error msg :=
  retry_bound _ fun _ => ⟨"ECONNRESET", rfl⟩

/-- C6: the constructor throws its configuration error exactly when
neither `props?.apiKey` nor `SPIDER_API_KEY` provides a non-empty
credential, and succeeds (storing a non-empty key) whenever either does.
`spiderInit` is a pure function of the two sources: the throw is
synchronous, inside the constructor, before any network request. -/
theorem fail_fast_construction (a e : Option String) :
    (spiderInit a e = Except.error "No API key provided" ↔
      (a = none ∨ a = some "") ∧ (e = none ∨ e = some "")) ∧
    (¬((a = none ∨ a = some "") ∧ (e = none ∨ e = some "")) →
      ∃ k, spiderInit a e = Except.ok k ∧ k ≠ "") := by
  rcases a with _ | s
  · rcases e with _ | t
    · simp [spiderInit, jsOrElse]
    · by_cases ht : t = "" <;> simp [spiderInit, jsOrElse, ht]
  · rcases e with _ | t
    · by_cases hs : s = "" <;> simp [spiderInit, jsOrElse, hs]
    · by_cases hs : s = "" <;> by_cases ht : t = "" <;>
        simp [spiderInit, jsOrElse, hs, ht]

/-! ## Lemmas about object spread for the `scrapeUrl` payload -/

/-- A key absent from a list is not found. -/
theorem getProp_not_mem {ps : List (String × Jval)} {k : String}
    (h : k ∉ ps.map Prod.fst) : getProp ps k = none := by
  induction ps with
  | nil => rfl
  | cons p t ih =>
    have hk : p.1 ≠ k := fun he => h (by simp [he])
    have ht : k ∉ t.map Prod.fst := fun hm => h (by simp [hm])
    simp [getProp, if_neg hk, ih ht]

/-- If no entry has key `k`, lookup fails. -/
theorem getProp_of_any_false {ps : List (String × Jval)} {k : String}
    (h : (ps.any fun p => p.1 = k) = false) : getProp ps k = none := by
  induction ps with
  | nil => rfl
  | cons p t ih =>
    rw [List.any_cons, Bool.or_eq_false_iff] at h
    have hk : p.1 ≠ k := by simpa using h.1
    simp [getProp, if_neg hk, ih h.2]

/-- Overwriting every entry of key `a`: lookups at `a` see the new value
when some entry had that key, all other lookups are untouched. -/
theorem getProp_overwrite (o : List (String × Jval)) (a : String) (v : Jval)
    (k : String) :
    getProp (o.map fun p => if p.1 = a then (a, v) else p) k =
      if a = k ∧ (o.any fun p => p.1 = a) = true then some v
      else getProp o k := by
  induction o with
  | nil => simp [getProp]
  | cons p t ih =>
    rw [List.map_cons]
    by_cases hx : p.1 = a
    · rw [if_pos hx]
      by_cases hak : a = k
      · subst hak
        simp [getProp, hx, List.any_cons]
      · have hpk : ¬(p.1 = k) := fun he => hak (by rw [← hx, he])
        simp [getProp, hak, hpk, ih]
    · rw [if_neg hx]
      have hdx : (decide (p.1 = a)) = false := by simp [hx]
      by_cases hxk : p.1 = k
      · have hak : ¬(a = k) := fun he => hx (by rw [hxk, he])
        simp [getProp, hxk, hak]
      · simp only [getProp, if_neg hxk, ih, List.any_cons]
        rw [hdx, Bool.false_or]

/-- Appending a fresh entry: found only when nothing earlier matches. -/
theorem getProp_append_single (o : List (String × Jval)) (a : String)
    (v : Jval) (k : String) :
    getProp (o ++ [(a, v)]) k =
      match getProp o k with
      | some w => some w
      | none => if a = k then some v else none := by
  induction o with
  | nil => simp [getProp]
  | cons p t ih =>
    by_cases hxk : p.1 = k
    · simp [getProp, hxk]
    · simp [getProp, hxk, ih]

/-- One JavaScript property assignment, seen through lookups. -/
theorem getProp_setProp (o : List (String × Jval)) (a : String) (v : Jval)
    (k : String) :
    getProp (setProp o a v) k = if a = k then some v else getProp o k := by
  rw [setProp]
  by_cases hany : (o.any fun p => p.1 = a) = true
  · rw [if_pos hany, getProp_overwrite]
    by_cases hak : a = k
    · rw [if_pos ⟨hak, hany⟩, if_pos hak]
    · rw [if_neg fun h => hak h.1, if_neg hak]
  · rw [if_neg hany, getProp_append_single]
    have hnone : getProp o a = none :=
      getProp_of_any_false (Bool.eq_false_iff.mpr hany)
    by_cases hak : a = k
    · subst hak
      rw [hnone]
    · cases hg : getProp o k with
      | none => simp [hak]
      | some w => simp [hak]

/-- Spreading `params` onto a base object: a key of `params` wins, any
other key falls through to the base (for `params` with distinct keys, as
any JavaScript object literal has). -/
theorem getProp_spreadInto (ps : List (String × Jval)) :
    ∀ (base : List (String × Jval)) (k : String),
      (ps.map Prod.fst).Nodup →
      getProp (spreadInto base ps) k =
        match getProp ps k with
        | some w => some w
        | none => getProp base k := by
  induction ps with
  | nil => intro base k _; simp [spreadInto, getProp]
  | cons p ps ih =>
    intro base k hnd
    rw [List.map_cons, List.nodup_cons] at hnd
    have step : spreadInto base (p :: ps) = spreadInto (setProp base p.1 p.2) ps := rfl
    rw [step, ih _ k hnd.2]
    by_cases hak : p.1 = k
    · subst hak
      have : getProp ps p.1 = none := getProp_not_mem hnd.1
      rw [this]
      simp [getProp, getProp_setProp]
    · cases hg : getProp ps k with
      | some w => simp [getProp, hak, hg]
      | none => simp [getProp, hak, hg, getProp_setProp]

/-- C7: the payload `scrapeUrl` posts contains `limit = 1` when the caller
omits `limit`, the caller's own value when present, the `url` argument
under `url` when the caller does not override it, and every other
caller-supplied property unchanged. -/
theorem scrape_default_limit (url : Jval) (params : List (String × Jval))
    (hnd : (params.map Prod.fst).Nodup) :
    (getProp params "limit" = none →
      getProp (scrapeUrlBody url params) "limit" = some (Jval.jnum 1 0)) ∧
    (∀ v, getProp params "limit" = some v →
      getProp (scrapeUrlBody url params) "limit" = some v) ∧
    (getProp params "url" = none →
      getProp (scrapeUrlBody url params) "url" = some url) ∧
    (∀ k v, k ≠ "url" → k ≠ "limit" → getProp params k = some v →
      getProp (scrapeUrlBody url params) k = some v) := by
  refine ⟨?_, ?_, ?_, ?_⟩
  · intro h
    rw [scrapeUrlBody, getProp_spreadInto params _ _ hnd, h]
    rfl
  · intro v h
    rw [scrapeUrlBody, getProp_spreadInto params _ _ hnd, h]
  · intro h
    rw [scrapeUrlBody, getProp_spreadInto params _ _ hnd, h]
    rfl
  · intro k v _ _ h
    rw [scrapeUrlBody, getProp_spreadInto params _ _ hnd, h]

/-- C7 witness: `limit = 5` overrides the default, extra properties pass
through, and with no `limit` the default 1 appears. -/
theorem scrape_default_limit_witness :
    (getProp [("limit", Jval.jnum 5 0)] "limit" = none →
      getProp (scrapeUrlBody (Jval.jstr "u".toList) [("limit", Jval.jnum 5 0)])
        "limit" = some (Jval.jnum 1 0)) ∧
    (∀ v, getProp [("limit", Jval.jnum 5 0)] "limit" = some v →
      getProp (scrapeUrlBody (Jval.jstr "u".toList) [("limit", Jval.jnum 5 0)])
        "limit" = some v) ∧
    (getProp [("limit", Jval.jnum 5 0)] "url" = none →
      getProp (scrapeUrlBody (Jval.jstr "u".toList) [("limit", Jval.jnum 5 0)])
        "url" = some (Jval.jstr "u".toList)) ∧
    (∀ k v, k ≠ "url" → k ≠ "limit" →
      getProp [("limit", Jval.jnum 5 0)] k = some v →
      getProp (scrapeUrlBody (Jval.jstr "u".toList) [("limit", Jval.jnum 5 0)])
        k = some v) :=
  scrape_default_limit (Jval.jstr "u".toList) [("limit", Jval.jnum 5 0)]
    (by simp)

/-! ## Lemmas about the signed-url query options -/

/-- The entries a string option can contribute. -/
theorem mem_keys_optStr {k key : String} {v : Option String} :
    (∃ x, (k, x) ∈ optStrParam key v) ↔ k = key ∧ strTruthy v := by
  cases v with
  | none => simp [optStrParam, strTruthy]
  | some s =>
    by_cases hs : s = "" <;> simp [optStrParam, hs, strTruthy]

/-- The entries a numeric option can contribute. -/
theorem mem_keys_optNum {k key : String} {v : Option Int} :
    (∃ x, (k, x) ∈ optNumParam key v) ↔ k = key ∧ numTruthy v := by
  cases v with
  | none => simp [optNumParam, numTruthy]
  | some n =>
    by_cases hn : n = (0 : Int) <;> simp [optNumParam, hn, numTruthy]

/-- The keys of the signed-url query: each of the six option keys appears
exactly when its option is truthy. -/
theorem mem_keys_signedUrlParams {k : String} {u d p : Option String}
    {pg l e : Option Int} :
    k ∈ (signedUrlParams u d p pg l e).map Prod.fst ↔
      (k = "url" ∧ strTruthy u) ∨ (k = "domain" ∧ strTruthy d) ∨
      (k = "pathname" ∧ strTruthy p) ∨ (k = "page" ∧ numTruthy pg) ∨
      (k = "limit" ∧ numTruthy l) ∨ (k = "expiresIn" ∧ numTruthy e) := by
  simp [signedUrlParams, List.mem_append, mem_keys_optStr, mem_keys_optNum,
    or_assoc]

/-- C10: `createSignedUrl` drops every falsy option from the query string —
`page`, `limit` or `expiresIn` equal to 0 (and empty-string `url`,
`domain`, `pathname`) contribute no key at all — while any non-zero
numeric value is serialized under its key as a decimal string
(`Number.prototype.toString`). -/
theorem signed_url_falsy_params (u d p : Option String)
    (pg l e : Option Int) :
    (pg = some 0 → "page" ∉ (signedUrlParams u d p pg l e).map Prod.fst) ∧
    (l = some 0 → "limit" ∉ (signedUrlParams u d p pg l e).map Prod.fst) ∧
    (e = some 0 → "expiresIn" ∉ (signedUrlParams u d p pg l e).map Prod.fst) ∧
    (u = some "" → "url" ∉ (signedUrlParams u d p pg l e).map Prod.fst) ∧
    (d = some "" → "domain" ∉ (signedUrlParams u d p pg l e).map Prod.fst) ∧
    (p = some "" → "pathname" ∉ (signedUrlParams u d p pg l e).map Prod.fst) ∧
    (∀ n : Int, n ≠ 0 → pg = some n →
      ("page", toString n) ∈ signedUrlParams u d p pg l e) ∧
    (∀ n : Int, n ≠ 0 → l = some n →
      ("limit", toString n) ∈ signedUrlParams u d p pg l e) ∧
    (∀ n : Int, n ≠ 0 → e = some n →
      ("expiresIn", toString n) ∈ signedUrlParams u d p pg l e) := by
  refine ⟨?_, ?_, ?_, ?_, ?_, ?_, ?_, ?_, ?_⟩
  · rintro rfl hm
    rcases mem_keys_signedUrlParams.mp hm with
      ⟨h, _⟩ | ⟨h, _⟩ | ⟨h, _⟩ | ⟨_, _, hn, hz⟩ | ⟨h, _⟩ | ⟨h, _⟩
    · exact absurd h (by decide)
    · exact absurd h (by decide)
    · exact absurd h (by decide)
    · exact hz (by injection hn with hn; exact hn.symm)
    · exact absurd h (by decide)
    · exact absurd h (by decide)
  · rintro rfl hm
    rcases mem_keys_signedUrlParams.mp hm with
      ⟨h, _⟩ | ⟨h, _⟩ | ⟨h, _⟩ | ⟨h, _⟩ | ⟨_, _, hn, hz⟩ | ⟨h, _⟩
    · exact absurd h (by decide)
    · exact absurd h (by decide)
    · exact absurd h (by decide)
    · exact absurd h (by decide)
    · exact hz (by injection hn with hn; exact hn.symm)
    · exact absurd h (by decide)
  · rintro rfl hm
    rcases mem_keys_signedUrlParams.mp hm with
      ⟨h, _⟩ | ⟨h, _⟩ | ⟨h, _⟩ | ⟨h, _⟩ | ⟨h, _⟩ | ⟨_, _, hn, hz⟩
    · exact absurd h (by decide)
    · exact absurd h (by decide)
    · exact absurd h (by decide)
    · exact absurd h (by decide)
    · exact absurd h (by decide)
    · exact hz (by injection hn with hn; exact hn.symm)
  · rintro rfl hm
    rcases mem_keys_signedUrlParams.mp hm with
      ⟨_, _, hn, hz⟩ | ⟨h, _⟩ | ⟨h, _⟩ | ⟨h, _⟩ | ⟨h, _⟩ | ⟨h, _⟩
    · exact hz (by injection hn with hn; exact hn.symm)
    · exact absurd h (by decide)
    · exact absurd h (by decide)
    · exact absurd h (by decide)
    · exact absurd h (by decide)
    · exact absurd h (by decide)
  · rintro rfl hm
    rcases mem_keys_signedUrlParams.mp hm with
      ⟨h, _⟩ | ⟨_, _, hn, hz⟩ | ⟨h, _⟩ | ⟨h, _⟩ | ⟨h, _⟩ | ⟨h, _⟩
    · exact absurd h (by decide)
    · exact hz (by injection hn with hn; exact hn.symm)
    · exact absurd h (by decide)
    · exact absurd h (by decide)
    · exact absurd h (by decide)
    · exact absurd h (by decide)
  · rintro rfl hm
    rcases mem_keys_signedUrlParams.mp hm with
      ⟨h, _⟩ | ⟨h, _⟩ | ⟨_, _, hn, hz⟩ | ⟨h, _⟩ | ⟨h, _⟩ | ⟨h, _⟩
    · exact absurd h (by decide)
    · exact absurd h (by decide)
    · exact hz (by injection hn with hn; exact hn.symm)
    · exact absurd h (by decide)
    · exact absurd h (by decide)
    · exact absurd h (by decide)
  · rintro n hn rfl
    simp [signedUrlParams, optNumParam, hn]
  · rintro n hn rfl
    simp [signedUrlParams, optNumParam, hn]
  · rintro n hn rfl
    simp [signedUrlParams, optNumParam, hn]

end SpiderClient
